import Mathlib

/-!
Verification of the emotion-to-music core of the NLP-Music-Recommendation
backend, shallowly embedded in Lean 4.

The embedding covers:
* `ModelManager.predict` (src/backend/app/ml/model_manager.py): the verdict
  builder — primary emotion via a stable descending sort of the score map,
  threshold-based detection, confidence tiers.
* `_find_best_matching_song` (src/backend/app/api/v1/endpoints/
  recommendations.py): best-match selection over a song catalog with a nested
  three-way tie-break.
* `_generate_recommendation_explanation` (same file): templated explanation
  text and reason list.
* the weekday-pattern and trend parts of `get_mood_patterns`
  (src/backend/app/api/v1/endpoints/insights.py).

Python `float` scores are modelled as exact rationals `ℚ`; Python dicts
(which iterate in insertion order) as ordered association lists or total
functions; nullable columns as `Option`.
-/

namespace MusicRec

/-- The fixed 17-label vocabulary `ModelManager.EMOTIONS`, in source order. -/
def EMOTIONS : List String :=
  ["Happiness", "Contentment", "Confidence", "Neutral", "Sadness", "Anger",
   "Fear", "Surprise", "Disgust", "Love", "Excitement", "Anticipation",
   "Nostalgia", "Confusion", "Frustration", "Longing", "Optimism"]

/-! ### Generic "first maximum" machinery

Python's `max(iterable, key=f)` and the head of a stable descending sort both
return the first element of the sequence attaining the maximal key.  We
capture that once, generically, and characterise it. -/

/-- The first element of the list attaining the maximal key: an earlier
element is kept unless a later element is strictly greater. -/
def firstMaxBy {α β : Type} [LinearOrder β] (key : α → β) : List α → Option α
  | [] => none
  | x :: xs =>
    some ((firstMaxBy key xs).elim x (fun m => if key x < key m then m else x))

theorem firstMaxBy_eq_none_iff {α β : Type} [LinearOrder β] (key : α → β)
    (l : List α) : firstMaxBy key l = none ↔ l = [] := by
  cases l <;> simp [firstMaxBy]

/-- Characterisation of `firstMaxBy`: the result splits the list, every
element strictly before it has a strictly smaller key, and every element of
the list has a key at most its key. -/
theorem firstMaxBy_spec {α β : Type} [LinearOrder β] (key : α → β) :
    ∀ (l : List α) (m : α), firstMaxBy key l = some m →
      ∃ l₁ l₂, l = l₁ ++ m :: l₂ ∧ (∀ x ∈ l₁, key x < key m) ∧
        (∀ x ∈ l, key x ≤ key m) := by
  intro l
  induction l with
  | nil => intro m h; simp [firstMaxBy] at h
  | cons x xs ih =>
    intro m h
    simp only [firstMaxBy] at h
    cases hxs : firstMaxBy key xs with
    | none =>
      rw [hxs] at h
      simp only [Option.elim, Option.some_inj] at h
      have hnil : xs = [] := (firstMaxBy_eq_none_iff key xs).mp hxs
      subst hnil
      exact ⟨[], [], by simp [h], by simp, by simp [h]⟩
    | some q =>
      rw [hxs] at h
      simp only [Option.elim, Option.some_inj] at h
      obtain ⟨l₁, l₂, hsplit, hbefore, hall⟩ := ih q hxs
      by_cases hlt : key x < key q
      · rw [if_pos hlt] at h
        subst h
        refine ⟨x :: l₁, l₂, by rw [hsplit]; simp, ?_, ?_⟩
        · intro y hy
          rcases List.mem_cons.mp hy with hy | hy
          · exact hy ▸ hlt
          · exact hbefore y hy
        · intro y hy
          rcases List.mem_cons.mp hy with hy | hy
          · exact hy ▸ le_of_lt hlt
          · exact hall y hy
      · rw [if_neg hlt] at h
        subst h
        refine ⟨[], xs, by simp, by simp, ?_⟩
        intro y hy
        rcases List.mem_cons.mp hy with hy | hy
        · exact hy ▸ le_refl _
        · exact le_trans (hall y hy) (not_lt.mp hlt)

theorem firstMaxBy_mem {α β : Type} [LinearOrder β] (key : α → β)
    (l : List α) (m : α) (h : firstMaxBy key l = some m) : m ∈ l := by
  obtain ⟨l₁, l₂, hsplit, _, _⟩ := firstMaxBy_spec key l m h
  rw [hsplit]
  exact List.mem_append.mpr (Or.inr (List.mem_cons_self _ _))

/-! ### The verdict builder: `ModelManager.predict`

The Python code builds `emotion_scores = {emotion: score}` in `EMOTIONS`
order, then takes `sorted(emotion_scores.items(), key=lambda x: x[1],
reverse=True)[0]` as the primary emotion.  Python's sort is stable, which we
model with `List.insertionSort` under the non-strict descending relation
(an element is inserted before the first strictly-smaller one, after all
greater-or-equal ones — exactly timsort's stable descending order). -/

/-- `sorted(emotion_scores.items(), key=lambda x: x[1], reverse=True)`. -/
def sortedEmotions (scores : String → ℚ) : List (String × ℚ) :=
  List.insertionSort (fun p q => q.2 ≤ p.2)
    (EMOTIONS.map fun e => (e, scores e))

theorem head_orderedInsert (p : String × ℚ) (l : List (String × ℚ)) :
    (List.orderedInsert (fun a b => b.2 ≤ a.2) p l).head? =
      some (l.head?.elim p (fun q => if q.2 ≤ p.2 then p else q)) := by
  cases l with
  | nil => simp [List.orderedInsert]
  | cons q t =>
    simp only [List.orderedInsert, List.head?, Option.elim]
    split_ifs with h <;> simp

/-- The head of the stable descending sort is the first maximum of the
original list. -/
theorem head_insertionSort (l : List (String × ℚ)) :
    (List.insertionSort (fun p q => q.2 ≤ p.2) l).head? =
      firstMaxBy Prod.snd l := by
  induction l with
  | nil => simp [List.insertionSort, firstMaxBy]
  | cons x xs ih =>
    simp only [List.insertionSort, firstMaxBy]
    rw [head_orderedInsert, ih]
    cases h : firstMaxBy Prod.snd xs with
    | none => simp [Option.elim]
    | some m =>
      simp only [Option.elim]
      congr 1
      by_cases hlt : x.2 < m.2
      · rw [if_neg (not_le.mpr hlt), if_pos hlt]
      · rw [if_pos (not_lt.mp hlt), if_neg hlt]

/-- The structured output of `ModelManager.predict` (the fields the claims
are about; the raw score map itself is carried as the `scores` function). -/
structure Verdict where
  primary_emotion : String
  primary_confidence : ℚ
  detected_emotions : List String
  secondary_emotions : List String
  confidence_level : String
deriving Repr, DecidableEq

/-- `ModelManager.predict`, after the opaque classifier has produced the
per-label score map (`scores`): sort descending (stable) for the primary
emotion, filter by `threshold` in dict (= `EMOTIONS`) order for the detected
emotions, drop the primary for the secondary ones, and bucket the confidence
tier. -/
def predict (scores : String → ℚ) (threshold : ℚ) : Verdict :=
  let sorted := sortedEmotions scores
  let primary := sorted.head?.getD ("", 0)
  let detected := EMOTIONS.filter (fun e => threshold ≤ scores e)
  { primary_emotion := primary.1
    primary_confidence := primary.2
    detected_emotions := detected
    secondary_emotions := detected.filter (fun e => e ≠ primary.1)
    confidence_level :=
      if (8 : ℚ)/10 ≤ primary.2 then "high"
      else if (5 : ℚ)/10 ≤ primary.2 then "medium"
      else "low" }

theorem sortedEmotions_head (scores : String → ℚ) :
    (sortedEmotions scores).head? =
      firstMaxBy Prod.snd (EMOTIONS.map fun e => (e, scores e)) :=
  head_insertionSort _

/-- Splitting a mapped list around an element recovers a split of the
original list. -/
theorem map_eq_append_cons {α β : Type} (f : α → β) :
    ∀ (L : List α) (l₁ : List β) (x : β) (l₂ : List β),
      L.map f = l₁ ++ x :: l₂ →
      ∃ L₁ a L₂, L = L₁ ++ a :: L₂ ∧ L₁.map f = l₁ ∧ f a = x ∧
        L₂.map f = l₂ := by
  intro L
  induction L with
  | nil => intro l₁ x l₂ h; cases l₁ <;> simp at h
  | cons a L ih =>
    intro l₁ x l₂ h
    cases l₁ with
    | nil =>
      simp only [List.map, List.nil_append, List.cons.injEq] at h
      exact ⟨[], a, L, by simp, by simp, h.1, h.2⟩
    | cons y l₁ =>
      simp only [List.map, List.cons_append, List.cons.injEq] at h
      obtain ⟨L₁, b, L₂, hs, h1, h2, h3⟩ := ih l₁ x l₂ h.2
      exact ⟨a :: L₁, b, L₂, by simp [hs], by simp [h.1, h1], h2, h3⟩

/-- The primary emotion of `predict` splits `EMOTIONS`: its score is the
score of the primary label, every label strictly before it scores strictly
less, and no label scores more. -/
theorem predict_primary (scores : String → ℚ) (threshold : ℚ) :
    ∃ l₁ l₂, EMOTIONS = l₁ ++ (predict scores threshold).primary_emotion :: l₂ ∧
      (predict scores threshold).primary_confidence =
        scores (predict scores threshold).primary_emotion ∧
      (∀ e ∈ l₁, scores e < (predict scores threshold).primary_confidence) ∧
      (∀ e ∈ EMOTIONS, scores e ≤ (predict scores threshold).primary_confidence) := by
  cases h : firstMaxBy Prod.snd (EMOTIONS.map fun e => (e, scores e)) with
  | none =>
    exfalso
    have := (firstMaxBy_eq_none_iff Prod.snd _).mp h
    simp [EMOTIONS] at this
  | some m =>
    obtain ⟨p₁, p₂, hsplit, hbefore, hall⟩ := firstMaxBy_spec Prod.snd _ m h
    obtain ⟨L₁, a, L₂, hL, hmap1, hfa, hmap2⟩ :=
      map_eq_append_cons (fun e => (e, scores e)) EMOTIONS p₁ m p₂ hsplit
    have hhead : (sortedEmotions scores).head? = some m := by
      rw [sortedEmotions_head, h]
    have hprim1 : (predict scores threshold).primary_emotion = m.1 := by
      simp [predict, hhead]
    have hprim2 : (predict scores threshold).primary_confidence = m.2 := by
      simp [predict, hhead]
    have hm1 : m.1 = a := by rw [← hfa]
    have hm2 : m.2 = scores a := by rw [← hfa]
    refine ⟨L₁, L₂, by rw [hL, hprim1, hm1], ?_, ?_, ?_⟩
    · rw [hprim1, hprim2, hm1, hm2]
    · intro e he
      rw [hprim2]
      have : (e, scores e) ∈ p₁ := by
        rw [← hmap1]; exact List.mem_map_of_mem _ he
      exact hbefore _ this
    · intro e he
      rw [hprim2]
      have : (e, scores e) ∈ EMOTIONS.map fun e => (e, scores e) :=
        List.mem_map_of_mem _ he
      exact hall _ this

/-- C2: for every score map over the full 17-label `EMOTIONS` set, the
verdict's `primary_emotion` scores at least as high as every label,
`primary_confidence` equals its score, and every label strictly earlier in
`EMOTIONS` order scores strictly less — so on an exact tie for the maximum
the earliest label in `EMOTIONS` order is the one chosen. -/
theorem primary_label_is_first_maximum (scores : String → ℚ) (threshold : ℚ) :
    (predict scores threshold).primary_confidence =
        scores (predict scores threshold).primary_emotion ∧
    (∀ e ∈ EMOTIONS, scores e ≤ (predict scores threshold).primary_confidence) ∧
    ∃ l₁ l₂, EMOTIONS = l₁ ++ (predict scores threshold).primary_emotion :: l₂ ∧
      ∀ e ∈ l₁, scores e < (predict scores threshold).primary_confidence := by
  obtain ⟨l₁, l₂, hsplit, hconf, hbefore, hall⟩ := predict_primary scores threshold
  exact ⟨hconf, hall, l₁, l₂, hsplit, hbefore⟩

/-- C8: the verdict's primary label is always defined (it is one of the 17
labels of `EMOTIONS`, attaining the maximal score), and whenever
`primary_confidence` is at least the threshold, the primary label is a member
of `detected_emotions`. -/
theorem primary_label_defined_and_detected (scores : String → ℚ) (threshold : ℚ) :
    (predict scores threshold).primary_emotion ∈ EMOTIONS ∧
    (threshold ≤ (predict scores threshold).primary_confidence →
      (predict scores threshold).primary_emotion ∈
        (predict scores threshold).detected_emotions) := by
  obtain ⟨l₁, l₂, hsplit, hconf, hbefore, hall⟩ := predict_primary scores threshold
  have hmem : (predict scores threshold).primary_emotion ∈ EMOTIONS := by
    rw [hsplit]
    exact List.mem_append.mpr (Or.inr (List.mem_cons_self _ _))
  refine ⟨hmem, fun hth => ?_⟩
  have hdet : (predict scores threshold).detected_emotions =
      EMOTIONS.filter (fun e => threshold ≤ scores e) := rfl
  rw [hdet]
  refine List.mem_filter.mpr ⟨hmem, ?_⟩
  rw [← hconf]
  exact decide_eq_true hth

/-- Witness for C8 at the concrete all-equal score map `fun _ => 0` with
threshold `0`. -/
theorem primary_label_defined_and_detected_witness :
    ((0 : ℚ) ≤ (predict (fun _ => (0 : ℚ)) 0).primary_confidence) ∧
    (predict (fun _ => (0 : ℚ)) 0).primary_emotion ∈
      (predict (fun _ => (0 : ℚ)) 0).detected_emotions :=
  ⟨by decide, (primary_label_defined_and_detected (fun _ => (0 : ℚ)) 0).2
    (by decide)⟩

/-! ### The catalog matcher: `_find_best_matching_song`

`recommendations.py` scans `db.query(Song).all()` once, keeping the current
best song together with its weighted score and matched-emotion list, under a
nested three-way comparison.  We embed the loop as a `foldl` over the catalog
in iteration order and prove it computes the first lexicographic maximum. -/

/-- The fields of the `Song` ORM row that the matcher and the explanation
generator read.  `emotions` and `times_played`/`average_rating` are nullable
columns; `emotion_scores` is a JSON dict in insertion order. -/
structure Song where
  name : String
  emotions : Option (List String)
  emotion_scores : List (String × ℚ)
  times_played : Option ℕ
  average_rating : Option ℚ
deriving Repr, DecidableEq

/-- `Song.get_emotion_list`: the `emotions` column if truthy (present and
non-empty), else the keys of `emotion_scores` whose score is `> 0.5`. -/
def Song.get_emotion_list (s : Song) : List String :=
  match s.emotions with
  | some l =>
    if l ≠ [] then l
    else (s.emotion_scores.filter (fun p => (1 : ℚ)/2 < p.2)).map Prod.fst
  | none => (s.emotion_scores.filter (fun p => (1 : ℚ)/2 < p.2)).map Prod.fst

/-- `matched = [e for e in detected_emotions if e in song_emotions]`. -/
def matchedOf (detected : List String) (s : Song) : List String :=
  detected.filter (fun e => e ∈ s.get_emotion_list)

/-- `weighted_score = sum(emotion_scores.get(e, 0) for e in matched)`. -/
def weightedOf (detected : List String) (scores : String → ℚ) (s : Song) : ℚ :=
  ((matchedOf detected s).map scores).sum

/-- `song.times_played or 0`. -/
def playedOrZero (s : Song) : ℕ := s.times_played.getD 0

/-- `best_song is None or (song.times_played or 0) < (best_song.times_played
or 0)` — the last leg of the loop's comparison. -/
def lessPlayedThan (song : Song) : Option Song → Prop
  | none => True
  | some b => playedOrZero song < playedOrZero b

instance (song : Song) : (o : Option Song) → Decidable (lessPlayedThan song o)
  | none => isTrue trivial
  | some _ => inferInstanceAs (Decidable (_ < _))

/-- The loop state of `_find_best_matching_song`: the current best song, its
weighted score (initially `-1`) and its matched-emotion list. -/
structure BestState where
  best_song : Option Song
  best_score : ℚ
  best_matched : List String
deriving Repr, DecidableEq

/-- The nested conditional guarding the update of the loop state, exactly as
written in the source. -/
def stepCond (detected : List String) (scores : String → ℚ)
    (st : BestState) (song : Song) : Prop :=
  (matchedOf detected song).length > st.best_matched.length ∨
  ((matchedOf detected song).length = st.best_matched.length ∧
    weightedOf detected scores song > st.best_score) ∨
  ((matchedOf detected song).length = st.best_matched.length ∧
    weightedOf detected scores song = st.best_score ∧
    lessPlayedThan song st.best_song)

instance (detected : List String) (scores : String → ℚ)
    (st : BestState) (song : Song) : Decidable (stepCond detected scores st song) :=
  inferInstanceAs (Decidable (_ ∨ _))

/-- One iteration of the `for song in songs` loop. -/
def matchStep (detected : List String) (scores : String → ℚ)
    (st : BestState) (song : Song) : BestState :=
  if stepCond detected scores st song then
    ⟨some song, weightedOf detected scores song, matchedOf detected song⟩
  else st

/-- The result triple of `_find_best_matching_song`. -/
structure MatchOutcome where
  best_song : Option Song
  match_score : ℚ
  matched_emotions : List String
deriving Repr, DecidableEq

/-- `_find_best_matching_song`: empty catalog short-circuits to the absence
triple; otherwise the loop runs and the winner's score is normalised to
`len(matched) / max(len(detected), 1)` when a song won with at least one
matched emotion, else `0.0`. -/
def findBestSong (detected : List String) (scores : String → ℚ)
    (songs : List Song) : MatchOutcome :=
  if songs = [] then ⟨none, 0, []⟩
  else
    let st := songs.foldl (matchStep detected scores) ⟨none, -1, []⟩
    let match_score : ℚ :=
      if st.best_song ≠ none ∧ st.best_matched ≠ [] then
        (st.best_matched.length : ℚ) / ((max detected.length 1 : ℕ) : ℚ)
      else 0
    ⟨st.best_song, match_score, st.best_matched⟩

/-- The selection key stated by the spec: coverage, then confidence-weighted
overlap, then **least** play count — a lexicographic triple, the last
component order-dualised. -/
def songKey (detected : List String) (scores : String → ℚ) (s : Song) :
    ℕ ×ₗ ℚ ×ₗ ℕᵒᵈ :=
  toLex ((matchedOf detected s).length,
    toLex (weightedOf detected scores s, OrderDual.toDual (playedOrZero s)))

/-- A loop state holding song `b` together with its weighted score and
matched list. -/
def mkState (detected : List String) (scores : String → ℚ) (b : Song) :
    BestState :=
  ⟨some b, weightedOf detected scores b, matchedOf detected b⟩

theorem stepCond_iff_key_lt (detected : List String) (scores : String → ℚ)
    (b s : Song) :
    stepCond detected scores (mkState detected scores b) s ↔
      songKey detected scores b < songKey detected scores s := by
  simp only [stepCond, mkState, songKey, Prod.Lex.lt_iff,
    OrderDual.toDual_lt_toDual, lessPlayedThan, gt_iff_lt]
  constructor
  · rintro (h | ⟨h1, h2⟩ | ⟨h1, h2, h3⟩)
    · exact Or.inl h
    · exact Or.inr ⟨h1.symm, Or.inl h2⟩
    · exact Or.inr ⟨h1.symm, Or.inr ⟨h2.symm, h3⟩⟩
  · rintro (h | ⟨h1, h2 | ⟨h2, h3⟩⟩)
    · exact Or.inl h
    · exact Or.inr (Or.inl ⟨h1.symm, h2⟩)
    · exact Or.inr (Or.inr ⟨h1.symm, h2.symm, h3⟩)

theorem matchStep_mkState (detected : List String) (scores : String → ℚ)
    (b s : Song) :
    matchStep detected scores (mkState detected scores b) s =
      if songKey detected scores b < songKey detected scores s then
        mkState detected scores s
      else mkState detected scores b := by
  rw [matchStep,
    if_congr (stepCond_iff_key_lt detected scores b s) rfl rfl]
  rfl

theorem matchStep_init (detected : List String) (scores : String → ℚ)
    (s : Song) :
    matchStep detected scores ⟨none, -1, []⟩ s = mkState detected scores s := by
  rw [matchStep, if_pos]
  · rfl
  · rcases Nat.eq_zero_or_pos (matchedOf detected s).length with h | h
    · refine Or.inr (Or.inl ⟨h, ?_⟩)
      have hm : matchedOf detected s = [] := List.length_eq_zero.mp h
      have : weightedOf detected scores s = 0 := by
        rw [weightedOf, hm]; simp
      rw [this]
      norm_num
    · exact Or.inl h

/-- The loop, started from a state holding `b`, computes the first
lexicographic maximum of `b` followed by the remaining songs. -/
theorem foldl_matchStep (detected : List String) (scores : String → ℚ) :
    ∀ (ss : List Song) (b : Song),
      ss.foldl (matchStep detected scores) (mkState detected scores b) =
        mkState detected scores
          ((firstMaxBy (songKey detected scores) ss).elim b
            (fun m => if songKey detected scores b < songKey detected scores m
              then m else b)) := by
  intro ss
  induction ss with
  | nil => intro b; simp [firstMaxBy, Option.elim]
  | cons s ss ih =>
    intro b
    rw [List.foldl_cons, matchStep_mkState]
    by_cases hbs : songKey detected scores b < songKey detected scores s
    · rw [if_pos hbs, ih s]
      simp only [firstMaxBy, Option.elim]
      cases hss : firstMaxBy (songKey detected scores) ss with
      | none => simp [Option.elim, if_pos hbs]
      | some m =>
        simp only [Option.elim]
        by_cases hsm : songKey detected scores s < songKey detected scores m
        · rw [if_pos hsm, if_pos (lt_trans hbs hsm)]
        · rw [if_neg hsm, if_pos hbs]
    · rw [if_neg hbs, ih b]
      simp only [firstMaxBy, Option.elim]
      cases hss : firstMaxBy (songKey detected scores) ss with
      | none => simp [Option.elim, if_neg hbs]
      | some m =>
        simp only [Option.elim]
        by_cases hsm : songKey detected scores s < songKey detected scores m
        · rw [if_pos hsm]
        · rw [if_neg hsm, if_neg hbs]
          have hmb : ¬ songKey detected scores b < songKey detected scores m :=
            fun h => hbs (lt_of_lt_of_le h (le_of_not_lt hsm))
          rw [if_neg hmb]

/-- For a non-empty catalog, the loop state is exactly the first
lexicographic maximum of the whole catalog. -/
theorem findBest_state (detected : List String) (scores : String → ℚ)
    (songs : List Song) (h : songs ≠ []) :
    ∃ m, firstMaxBy (songKey detected scores) songs = some m ∧
      songs.foldl (matchStep detected scores) ⟨none, -1, []⟩ =
        mkState detected scores m := by
  cases songs with
  | nil => exact absurd rfl h
  | cons s ss =>
    refine ⟨((firstMaxBy (songKey detected scores) ss).elim s
      (fun m => if songKey detected scores s < songKey detected scores m
        then m else s)), rfl, ?_⟩
    rw [List.foldl_cons, matchStep_init, foldl_matchStep]

/-- For a non-empty catalog, `findBestSong` returns the first lexicographic
maximum together with its matched list and the normalised score. -/
theorem findBestSong_eq (detected : List String) (scores : String → ℚ)
    (songs : List Song) (h : songs ≠ []) :
    ∃ m, firstMaxBy (songKey detected scores) songs = some m ∧
      findBestSong detected scores songs =
        ⟨some m,
         if matchedOf detected m ≠ [] then
           ((matchedOf detected m).length : ℚ) / ((max detected.length 1 : ℕ) : ℚ)
         else 0,
         matchedOf detected m⟩ := by
  obtain ⟨m, hm, hst⟩ := findBest_state detected scores songs h
  refine ⟨m, hm, ?_⟩
  rw [findBestSong, if_neg h]
  simp only [hst, mkState]
  congr 1
  by_cases hmt : matchedOf detected m ≠ []
  · rw [if_pos hmt, if_pos ⟨by simp, hmt⟩]
  · rw [if_neg hmt, if_neg (fun hc => hmt hc.2)]

/-- C1: for every verdict (detected list and score map) and every non-empty
catalog, the song selected by `_find_best_matching_song` is the strict
lexicographic maximum of `songKey` — (1) number of matched detected labels,
(2) confidence-weighted sum over the matched labels, (3) play count reversed
(fewer plays is greater) — and any full tie is resolved in favor of the song
appearing first in catalog order: the winner splits the catalog with every
strictly earlier song carrying a strictly smaller key. -/
theorem best_song_is_first_lex_maximum (detected : List String)
    (scores : String → ℚ) (songs : List Song) (h : songs ≠ []) :
    ∃ best l₁ l₂, (findBestSong detected scores songs).best_song = some best ∧
      songs = l₁ ++ best :: l₂ ∧
      (∀ s ∈ songs, songKey detected scores s ≤ songKey detected scores best) ∧
      (∀ s ∈ l₁, songKey detected scores s < songKey detected scores best) := by
  obtain ⟨m, hm, heq⟩ := findBestSong_eq detected scores songs h
  obtain ⟨l₁, l₂, hsplit, hbefore, hall⟩ :=
    firstMaxBy_spec (songKey detected scores) songs m hm
  exact ⟨m, l₁, l₂, by rw [heq], hsplit, hall, hbefore⟩

/-- Witness for C1: a two-song catalog realising the scenario of the spec
(item B covers both detected labels and wins). -/
theorem best_song_is_first_lex_maximum_witness :
    ([(⟨"A", some ["Happiness"], [], some 50, none⟩ : Song),
      ⟨"B", some ["Happiness", "Love"], [], some 5, none⟩] ≠ []) ∧
    (∃ best l₁ l₂,
      (findBestSong ["Happiness", "Love"] (fun _ => 0)
        [⟨"A", some ["Happiness"], [], some 50, none⟩,
         ⟨"B", some ["Happiness", "Love"], [], some 5, none⟩]).best_song = some best ∧
      [(⟨"A", some ["Happiness"], [], some 50, none⟩ : Song),
       ⟨"B", some ["Happiness", "Love"], [], some 5, none⟩] = l₁ ++ best :: l₂ ∧
      (∀ s ∈ [(⟨"A", some ["Happiness"], [], some 50, none⟩ : Song),
              ⟨"B", some ["Happiness", "Love"], [], some 5, none⟩],
        songKey ["Happiness", "Love"] (fun _ => 0) s ≤
          songKey ["Happiness", "Love"] (fun _ => 0) best) ∧
      (∀ s ∈ l₁, songKey ["Happiness", "Love"] (fun _ => 0) s <
          songKey ["Happiness", "Love"] (fun _ => 0) best)) :=
  ⟨by simp, best_song_is_first_lex_maximum _ _ _ (by simp)⟩

/-- C3: for every verdict and non-empty catalog, `_find_best_matching_song`
returns a song (never the absence value), its `match_score` equals
`len(matched) / max(len(detected), 1)`, lies in `[0, 1]`, and is exactly `0`
when the winner matched no detected label — with the song still returned. -/
theorem nonempty_catalog_coverage_score (detected : List String)
    (scores : String → ℚ) (songs : List Song) (h : songs ≠ []) :
    ∃ best, (findBestSong detected scores songs).best_song = some best ∧
      (findBestSong detected scores songs).match_score =
        ((findBestSong detected scores songs).matched_emotions.length : ℚ) /
          ((max detected.length 1 : ℕ) : ℚ) ∧
      0 ≤ (findBestSong detected scores songs).match_score ∧
      (findBestSong detected scores songs).match_score ≤ 1 ∧
      ((findBestSong detected scores songs).matched_emotions = [] →
        (findBestSong detected scores songs).match_score = 0) := by
  obtain ⟨m, hm, heq⟩ := findBestSong_eq detected scores songs h
  have hformula : (findBestSong detected scores songs).match_score =
      ((findBestSong detected scores songs).matched_emotions.length : ℚ) /
        ((max detected.length 1 : ℕ) : ℚ) := by
    rw [heq]
    by_cases hmt : matchedOf detected m ≠ []
    · simp only [if_pos hmt]
    · push_neg at hmt
      simp [hmt]
  have hlen : ((findBestSong detected scores songs).matched_emotions.length : ℚ) ≤
      ((max detected.length 1 : ℕ) : ℚ) := by
    rw [heq]
    have h1 : (matchedOf detected m).length ≤ detected.length :=
      List.length_filter_le _ _
    exact_mod_cast le_trans h1 (le_max_left _ _)
  have hdenpos : (0 : ℚ) < ((max detected.length 1 : ℕ) : ℚ) := by
    have : (1 : ℕ) ≤ max detected.length 1 := le_max_right _ _
    exact_mod_cast lt_of_lt_of_le Nat.zero_lt_one this
  refine ⟨m, by rw [heq], hformula, ?_, ?_, ?_⟩
  · rw [hformula]
    exact div_nonneg (Nat.cast_nonneg _) (le_of_lt hdenpos)
  · rw [hformula]
    exact (div_le_one hdenpos).mpr hlen
  · intro hempty
    rw [hformula, hempty]
    simp

/-- Witness for C3: a singleton catalog whose only song matches nothing, yet
is still returned with score `0`. -/
theorem nonempty_catalog_coverage_score_witness :
    ([(⟨"A", some ["Calm"], [], some 3, none⟩ : Song)] ≠ []) ∧
    (∃ best, (findBestSong ["Happiness"] (fun _ => 0)
        [⟨"A", some ["Calm"], [], some 3, none⟩]).best_song = some best ∧
      (findBestSong ["Happiness"] (fun _ => 0)
        [⟨"A", some ["Calm"], [], some 3, none⟩]).match_score =
        ((findBestSong ["Happiness"] (fun _ => 0)
          [⟨"A", some ["Calm"], [], some 3, none⟩]).matched_emotions.length : ℚ) /
          ((max (["Happiness"] : List String).length 1 : ℕ) : ℚ) ∧
      0 ≤ (findBestSong ["Happiness"] (fun _ => 0)
        [⟨"A", some ["Calm"], [], some 3, none⟩]).match_score ∧
      (findBestSong ["Happiness"] (fun _ => 0)
        [⟨"A", some ["Calm"], [], some 3, none⟩]).match_score ≤ 1 ∧
      ((findBestSong ["Happiness"] (fun _ => 0)
        [⟨"A", some ["Calm"], [], some 3, none⟩]).matched_emotions = [] →
        (findBestSong ["Happiness"] (fun _ => 0)
          [⟨"A", some ["Calm"], [], some 3, none⟩]).match_score = 0)) :=
  ⟨by simp, nonempty_catalog_coverage_score _ _ _ (by simp)⟩

/-- C9: an empty catalog yields the explicit absence triple — no song, zero
score, no matched labels — and the computation is total (no error path). -/
theorem empty_catalog_absence (detected : List String) (scores : String → ℚ) :
    findBestSong detected scores [] = ⟨none, 0, []⟩ := rfl

/-! ### The explanation generator: `_generate_recommendation_explanation`

Templated text: a main explanation string and a `why_this_song` reason list.
Python's `int()` truncates toward zero; `"{:.1f}"` float formatting is
modelled by rounding to one decimal digit (its exact digits play no role in
the claims, only the identity of the reason string). -/

/-- Python `int()` on a rational: truncation toward zero. -/
def pyInt (q : ℚ) : ℤ := if 0 ≤ q then ⌊q⌋ else -⌊-q⌋

/-- `score_percent = int(match_score * 100)`. -/
def scorePercent (match_score : ℚ) : ℤ := pyInt (match_score * 100)

/-- One-decimal formatting of a (non-negative) rating, modelling
`f"{v:.1f}"`. -/
def fmt1 (v : ℚ) : String :=
  toString (round (v * 10) / 10) ++ "." ++ toString (round (v * 10) % 10)

/-- Truthiness-guarded rating test:
`song.average_rating and song.average_rating >= 4.0`. -/
def ratingHigh : Option ℚ → Prop
  | none => False
  | some v => v ≠ 0 ∧ 4 ≤ v

instance : (o : Option ℚ) → Decidable (ratingHigh o)
  | none => isFalse id
  | some _ => inferInstanceAs (Decidable (_ ∧ _))

/-- Truthiness-guarded popularity test:
`song.times_played and song.times_played > 10`. -/
def popularQ : Option ℕ → Prop
  | none => False
  | some t => t ≠ 0 ∧ 10 < t

instance : (o : Option ℕ) → Decidable (popularQ o)
  | none => isFalse id
  | some _ => inferInstanceAs (Decidable (_ ∧ _))

/-- `", ".join(l)`. -/
def joinComma : List String → String
  | [] => ""
  | [x] => x
  | x :: y :: rest => x ++ ", " ++ joinComma (y :: rest)

/-- `l[-1]` for non-empty `l` (empty-list default never reached). -/
def lastOrEmpty : List String → String
  | [] => ""
  | [x] => x
  | _ :: y :: rest => lastOrEmpty (y :: rest)

/-- `l[0]` for non-empty `l` (empty-list default never reached). -/
def headOrEmpty : List String → String
  | [] => ""
  | x :: _ => x

/-- The spec's description of the label join: "join all but the last with
commas and the last with \x22and\x22". -/
def joinAndSpec : List String → String
  | [] => ""
  | [x] => x
  | [x, y] => x ++ " and " ++ y
  | x :: y :: z :: rest => x ++ ", " ++ joinAndSpec (y :: z :: rest)

/-- The reason `f"Matches your {primary_emotion} mood"`. -/
def matchesMoodReason (primary : String) : String :=
  "Matches your " ++ primary ++ " mood"

/-- The reason `f"Covers {len(matched_emotions)} of your detected
emotions"`. -/
def coversReason (n : ℕ) : String :=
  "Covers " ++ toString n ++ " of your detected emotions"

/-- The reason `f"Highly rated by other users ({average_rating:.1f}/5)"`. -/
def highlyRatedReason (v : ℚ) : String :=
  "Highly rated by other users (" ++ fmt1 v ++ "/5)"

/-- The reason `"Popular choice for similar moods"`. -/
def popularReason : String := "Popular choice for similar moods"

/-- The fallback reason `"Selected to match your emotional state"`. -/
def fallbackReason : String := "Selected to match your emotional state"

/-- The `why_this_song` reason list, built exactly as in the source: four
conditional appends, then the generic fallback if nothing qualified. -/
def whyReasons (song : Song) (primary : String) (matched : List String) :
    List String :=
  let r1 := if matched ≠ [] then [matchesMoodReason primary] else []
  let r2 := if 1 < matched.length then [coversReason matched.length] else []
  let r3 := if ratingHigh song.average_rating then
      [highlyRatedReason (song.average_rating.getD 0)] else []
  let r4 := if popularQ song.times_played then [popularReason] else []
  let why := r1 ++ r2 ++ r3 ++ r4
  if why = [] then [fallbackReason] else why

/-- `_generate_recommendation_explanation`: the main explanation string
(three-way branch on the number of matched emotions) and the reason list. -/
def genExplanation (song : Song) (primary : String) (matched : List String)
    (match_score : ℚ) : String × List String :=
  let score_percent := scorePercent match_score
  let explanation :=
    if 1 < matched.length then
      "This track matches your emotional state with a " ++
        toString score_percent ++
        "% compatibility score. It resonates with your feelings of " ++
        (joinComma matched.dropLast ++ " and " ++ lastOrEmpty matched) ++ "."
    else if matched.length = 1 then
      "This song captures your " ++ headOrEmpty matched ++
        " mood perfectly with a " ++ toString score_percent ++ "% match score."
    else
      "This song was selected to complement your current mood."
  (explanation, whyReasons song primary matched)

theorem head_append_str (a b : String) (c : Char)
    (h : a.data.head? = some c) : (a ++ b).data.head? = some c := by
  rw [String.data_append]
  cases ha : a.data with
  | nil => rw [ha] at h; simp at h
  | cons x xs => rw [ha] at h; simpa using h

theorem ne_of_head_ne (a b : String) (h : a.data.head? ≠ b.data.head?) :
    a ≠ b :=
  fun e => h (congrArg (fun s => s.data.head?) e)

theorem head_matchesMoodReason (p : String) :
    (matchesMoodReason p).data.head? = some 'M' :=
  head_append_str _ _ _ (head_append_str _ _ _ (by decide))

theorem head_coversReason (n : ℕ) :
    (coversReason n).data.head? = some 'C' :=
  head_append_str _ _ _ (head_append_str _ _ _ (by decide))

theorem head_highlyRatedReason (v : ℚ) :
    (highlyRatedReason v).data.head? = some 'H' :=
  head_append_str _ _ _ (head_append_str _ _ _ (by decide))

theorem highlyRated_ne_matches (v : ℚ) (p : String) :
    highlyRatedReason v ≠ matchesMoodReason p :=
  ne_of_head_ne _ _ (by
    rw [head_highlyRatedReason, head_matchesMoodReason]; decide)

theorem highlyRated_ne_covers (v : ℚ) (n : ℕ) :
    highlyRatedReason v ≠ coversReason n :=
  ne_of_head_ne _ _ (by
    rw [head_highlyRatedReason, head_coversReason]; decide)

theorem highlyRated_ne_popular (v : ℚ) :
    highlyRatedReason v ≠ popularReason :=
  ne_of_head_ne _ _ (by rw [head_highlyRatedReason]; decide)

theorem highlyRated_ne_fallback (v : ℚ) :
    highlyRatedReason v ≠ fallbackReason :=
  ne_of_head_ne _ _ (by rw [head_highlyRatedReason]; decide)

theorem popular_ne_matches (p : String) :
    popularReason ≠ matchesMoodReason p :=
  ne_of_head_ne _ _ (by rw [head_matchesMoodReason]; decide)

theorem popular_ne_covers (n : ℕ) : popularReason ≠ coversReason n :=
  ne_of_head_ne _ _ (by rw [head_coversReason]; decide)

theorem popular_ne_highlyRated (v : ℚ) :
    popularReason ≠ highlyRatedReason v :=
  ne_of_head_ne _ _ (by rw [head_highlyRatedReason]; decide)

theorem popular_ne_fallback : popularReason ≠ fallbackReason := by decide

/-- The source's join (`", ".join(matched[:-1]) + f" and {matched[-1]}"`)
agrees with the spec's comma/and join on lists of length `> 1`. -/
theorem join_eq_joinAndSpec :
    ∀ (l : List String), 1 < l.length →
      joinComma l.dropLast ++ " and " ++ lastOrEmpty l = joinAndSpec l := by
  intro l
  induction l with
  | nil => intro h; simp at h
  | cons x xs ih =>
    cases xs with
    | nil => intro h; simp at h
    | cons y rest =>
      intro _
      cases rest with
      | nil => rfl
      | cons z rest2 =>
        have ihy := ih (by simp)
        have hstep : joinComma (x :: y :: z :: rest2).dropLast ++ " and " ++
            lastOrEmpty (x :: y :: z :: rest2) =
            x ++ ", " ++ (joinComma (y :: z :: rest2).dropLast ++ " and " ++
              lastOrEmpty (y :: z :: rest2)) := by
          show (x ++ ", " ++ joinComma (y :: z :: rest2).dropLast) ++ " and " ++
              lastOrEmpty (y :: z :: rest2) = _
          simp [String.append_assoc]
        rw [hstep, ihy]
        rfl

theorem ratingHigh_iff_exists (o : Option ℚ) :
    ratingHigh o ↔ ∃ v, o = some v ∧ 4 ≤ v := by
  cases o with
  | none => simp [ratingHigh]
  | some v =>
    simp only [ratingHigh, Option.some_inj]
    constructor
    · rintro ⟨h1, h2⟩
      exact ⟨v, rfl, h2⟩
    · rintro ⟨w, hw, h4⟩
      cases hw
      refine ⟨?_, h4⟩
      intro h0
      rw [h0] at h4
      norm_num at h4

theorem popularQ_iff_exists (o : Option ℕ) :
    popularQ o ↔ ∃ t, o = some t ∧ 10 < t := by
  cases o with
  | none => simp [popularQ]
  | some t =>
    simp only [popularQ, Option.some_inj]
    constructor
    · rintro ⟨h1, h2⟩
      exact ⟨t, rfl, h2⟩
    · rintro ⟨u, hu, h10⟩
      cases hu
      exact ⟨by omega, h10⟩

theorem highlyRated_mem_whyReasons (song : Song) (primary : String)
    (matched : List String) :
    highlyRatedReason (song.average_rating.getD 0) ∈
        whyReasons song primary matched ↔ ratingHigh song.average_rating := by
  simp only [whyReasons]
  split_ifs <;>
    simp_all [highlyRated_ne_matches, highlyRated_ne_covers,
      highlyRated_ne_popular, highlyRated_ne_fallback]

theorem popular_mem_whyReasons (song : Song) (primary : String)
    (matched : List String) :
    popularReason ∈ whyReasons song primary matched ↔
      popularQ song.times_played := by
  simp only [whyReasons]
  split_ifs <;>
    simp_all [popular_ne_matches, popular_ne_covers,
      popular_ne_highlyRated, popular_ne_fallback]

theorem whyReasons_fallback (song : Song) (primary : String)
    (matched : List String) (h1 : matched = [])
    (h2 : ¬ ratingHigh song.average_rating)
    (h3 : ¬ popularQ song.times_played) :
    whyReasons song primary matched = [fallbackReason] := by
  subst h1
  simp [whyReasons, h2, h3]

/-- C7 (amended): in every generated explanation, with more than one matched
label the labels are joined with commas and a final "and"; the stated
percentage is `int(match_score * 100)` — truncation toward zero, not
`round` (see the counterexample); the "highly rated" reason appears iff the
song's `average_rating` is present and at least 4.0; the "popular" reason
appears iff its `times_played` exceeds 10; and when nothing qualifies the
reason list is exactly the single generic fallback. -/
theorem explanation_rules (song : Song) (primary : String)
    (matched : List String) (match_score : ℚ) :
    (1 < matched.length →
      (genExplanation song primary matched match_score).1 =
        "This track matches your emotional state with a " ++
          toString (scorePercent match_score) ++
          "% compatibility score. It resonates with your feelings of " ++
          joinAndSpec matched ++ ".") ∧
    (highlyRatedReason (song.average_rating.getD 0) ∈
        (genExplanation song primary matched match_score).2 ↔
      (∃ v, song.average_rating = some v ∧ 4 ≤ v)) ∧
    (popularReason ∈ (genExplanation song primary matched match_score).2 ↔
      (∃ t, song.times_played = some t ∧ 10 < t)) ∧
    ((matched = [] ∧ (¬ ∃ v, song.average_rating = some v ∧ 4 ≤ v) ∧
        (¬ ∃ t, song.times_played = some t ∧ 10 < t)) →
      (genExplanation song primary matched match_score).2 = [fallbackReason]) := by
  refine ⟨?_, ?_, ?_, ?_⟩
  · intro h
    simp only [genExplanation]
    rw [if_pos h, ← join_eq_joinAndSpec matched h]
  · rw [show (genExplanation song primary matched match_score).2 =
        whyReasons song primary matched from rfl]
    rw [highlyRated_mem_whyReasons, ratingHigh_iff_exists]
  · rw [show (genExplanation song primary matched match_score).2 =
        whyReasons song primary matched from rfl]
    rw [popular_mem_whyReasons, popularQ_iff_exists]
  · rintro ⟨h1, h2, h3⟩
    rw [show (genExplanation song primary matched match_score).2 =
        whyReasons song primary matched from rfl]
    exact whyReasons_fallback song primary matched h1
      (fun hc => h2 ((ratingHigh_iff_exists _).mp hc))
      (fun hc => h3 ((popularQ_iff_exists _).mp hc))

/-- Witness for C7 at a concrete two-label matched list. -/
theorem explanation_rules_witness :
    (1 < (["Happiness", "Love"] : List String).length) ∧
    (genExplanation ⟨"S", some ["Happiness"], [], some 0, none⟩ ("Happiness")
        ["Happiness", "Love"] 1).1 =
      "This track matches your emotional state with a " ++
        toString (scorePercent 1) ++
        "% compatibility score. It resonates with your feelings of " ++
        joinAndSpec ["Happiness", "Love"] ++ "." :=
  ⟨by decide, (explanation_rules _ _ _ _).1 (by decide)⟩

/-- Counterexample to C7 as stated: with `match_score = 2/3` (two of three
detected labels matched), the generated text states `66%` — `int()`
truncation — while `round(match_score * 100) = 67`. -/
theorem explanation_percent_counterexample :
    (genExplanation ⟨"S", some [], [], some 0, none⟩ ("Happiness")
        ["Happiness", "Love"] ((2 : ℚ)/3)).1 =
      "This track matches your emotional state with a 66% compatibility score. It resonates with your feelings of Happiness and Love." ∧
    round ((2 : ℚ)/3 * 100) = 67 ∧ ((66 : ℤ) ≠ 67) := by
  refine ⟨?_, ?_, by decide⟩
  · have hsp : scorePercent ((2 : ℚ)/3) = 66 := by
      rw [scorePercent, pyInt, if_pos (by norm_num : (0:ℚ) ≤ 2/3*100),
        show ((2 : ℚ)/3 * 100) = 200/3 by norm_num, Int.floor_eq_iff]
      norm_num
    simp only [genExplanation]
    rw [if_pos (by decide : 1 < (["Happiness", "Love"] : List String).length),
      hsp]
    rfl
  · rw [round_eq, show ((2 : ℚ)/3 * 100 + 1/2) = 403/6 by norm_num,
      Int.floor_eq_iff]
    norm_num

/-- C10: the reason `"Matches your <primary> mood"` is added whenever the
matched-label list is non-empty, with `primary` taken from the verdict — the
statement holds for every `primary`, in particular one not among the matched
labels (see the witness). -/
theorem primary_mood_cited_when_any_match (song : Song) (primary : String)
    (matched : List String) (match_score : ℚ) (h : matched ≠ []) :
    matchesMoodReason primary ∈
      (genExplanation song primary matched match_score).2 := by
  rw [show (genExplanation song primary matched match_score).2 =
      whyReasons song primary matched from rfl]
  simp [whyReasons, h]

/-- Witness for C10: the matched list is `["Love"]` while the primary mood is
`"Sadness"` — the explanation cites the primary mood even though the song
does not carry that label. -/
theorem primary_mood_cited_when_any_match_witness :
    ((["Love"] : List String) ≠ []) ∧
    matchesMoodReason ("Sadness") ∈
      (genExplanation ⟨"S", some ["Love"], [], none, none⟩ ("Sadness")
        ["Love"] 0).2 ∧
    ("Sadness") ∉ (["Love"] : List String) :=
  ⟨by simp, primary_mood_cited_when_any_match _ _ _ _ (by simp), by decide⟩

/-! ### History analytics: the weekday-pattern and trend parts of
`get_mood_patterns` (insights.py)

An analysis row carries its creation time (modelled as a rational timestamp,
only its order matters), the weekday name `created_at.strftime("%A")`
produced by the external datetime library, and the stored primary emotion.
The rows arrive ordered by `created_at` from the query; the computations
below only use the iteration order. -/

structure AnalysisRow where
  created_at : ℚ
  weekday : String
  primary_emotion : String
deriving Repr, DecidableEq

/-- One `weekday_emotions[weekday].append(primary_emotion)` on a
`defaultdict(list)` modelled as an insertion-ordered association list. -/
def addToGroups : List (String × List String) → String → String →
    List (String × List String)
  | [], day, emo => [(day, [emo])]
  | (d, es) :: rest, day, emo =>
    if d = day then (d, es ++ [emo]) :: rest
    else (d, es) :: addToGroups rest day emo

/-- The `weekday_emotions` dict after the first loop of
`get_mood_patterns`. -/
def weekdayGroups (rows : List AnalysisRow) : List (String × List String) :=
  rows.foldl (fun g a => addToGroups g a.weekday a.primary_emotion) []

/-- CPython's `max(items, key=lambda x: len(x[1]))`: left-to-right scan
replacing the current maximum only on strictly greater key — the first
maximum wins. -/
def pyMaxByLen : List (String × List String) → Option (String × List String)
  | [] => none
  | g :: gs =>
    some (gs.foldl (fun b x => if b.2.length < x.2.length then x else b) g)

/-- `most_entries = max(weekday_emotions.items(), key=lambda x: len(x[1]))`,
the busiest-day selection. -/
def busiestDay (rows : List AnalysisRow) : Option (String × List String) :=
  pyMaxByLen (weekdayGroups rows)

/-- Number of verdicts falling on weekday `d`. -/
def countDay (rows : List AnalysisRow) (d : String) : ℕ :=
  (rows.filter (fun a => a.weekday = d)).length

/-- A left-to-right strict-improvement scan computes the first maximum. -/
theorem foldl_pick_eq_firstMaxBy {α β : Type} [LinearOrder β] (key : α → β)
    (l : List α) : ∀ b : α,
      l.foldl (fun b x => if key b < key x then x else b) b =
        (firstMaxBy key l).elim b
          (fun m => if key b < key m then m else b) := by
  induction l with
  | nil => intro b; simp [firstMaxBy, Option.elim]
  | cons x xs ih =>
    intro b
    rw [List.foldl_cons, ih]
    simp only [firstMaxBy, Option.elim]
    cases hxs : firstMaxBy key xs with
    | none => simp [Option.elim]
    | some m =>
      simp only [Option.elim]
      by_cases hbx : key b < key x
      · rw [if_pos hbx]
        by_cases hxm : key x < key m
        · rw [if_pos hxm, if_pos (lt_trans hbx hxm)]
        · rw [if_neg hxm, if_pos hbx]
      · rw [if_neg hbx]
        by_cases hxm : key x < key m
        · rw [if_pos hxm]
        · rw [if_neg hxm, if_neg hbx]
          have hbm : ¬ key b < key m :=
            fun hc => hbx (lt_of_lt_of_le hc (le_of_not_lt hxm))
          rw [if_neg hbm]

theorem pyMaxByLen_eq_firstMaxBy (l : List (String × List String)) :
    pyMaxByLen l = firstMaxBy (fun g => g.2.length) l := by
  cases l with
  | nil => rfl
  | cons g gs =>
    rw [pyMaxByLen, foldl_pick_eq_firstMaxBy]
    simp only [firstMaxBy]

/-- The fixed positive-label subset of the trend computation. -/
def POSITIVE_EMOTIONS : List String :=
  ["Happiness", "Excitement", "Love", "Contentment", "Optimism", "Confidence"]

/-- `[a for a in analyses if a.created_at >= one_week_ago]`. -/
def recentRows (rows : List AnalysisRow) (cutoff : ℚ) : List AnalysisRow :=
  rows.filter (fun a => cutoff ≤ a.created_at)

/-- `[a for a in analyses if a.created_at < one_week_ago]`. -/
def olderRows (rows : List AnalysisRow) (cutoff : ℚ) : List AnalysisRow :=
  rows.filter (fun a => a.created_at < cutoff)

/-- `sum(1 for a in l if a.primary_emotion in POSITIVE) / len(l)`. -/
def positiveShare (l : List AnalysisRow) : ℚ :=
  ((l.filter (fun a => a.primary_emotion ∈ POSITIVE_EMOTIONS)).length : ℚ) /
    (l.length : ℚ)

/-- The trend-insight part of `get_mood_patterns`: emitted only when both
halves of the window (split at `cutoff = now - 7 days`) are non-empty and
the positive-share change is strictly larger than `0.1` in absolute value;
carries the direction string and the change. -/
def trendInsight (rows : List AnalysisRow) (cutoff : ℚ) :
    Option (String × ℚ) :=
  if recentRows rows cutoff ≠ [] ∧ olderRows rows cutoff ≠ [] then
    let change := positiveShare (recentRows rows cutoff) -
      positiveShare (olderRows rows cutoff)
    if 1/10 < |change| then
      some ((if 0 < change then "more positive" else "more reflective"),
        change)
    else none
  else none

/-- C5: the trend insight is emitted iff both halves of the window are
non-empty and the absolute difference of their positive-label shares exceeds
0.10 strictly; its direction is "more positive" exactly when the recent
share exceeds the older share, "more reflective" otherwise. -/
theorem trend_insight_iff (rows : List AnalysisRow) (cutoff : ℚ) :
    ((trendInsight rows cutoff).isSome ↔
      (recentRows rows cutoff ≠ [] ∧ olderRows rows cutoff ≠ [] ∧
        1/10 < |positiveShare (recentRows rows cutoff) -
          positiveShare (olderRows rows cutoff)|)) ∧
    (∀ dir ch, trendInsight rows cutoff = some (dir, ch) →
      ch = positiveShare (recentRows rows cutoff) -
        positiveShare (olderRows rows cutoff) ∧
      dir = (if positiveShare (olderRows rows cutoff) <
          positiveShare (recentRows rows cutoff)
        then "more positive" else "more reflective")) := by
  constructor
  · simp only [trendInsight]
    split_ifs with h1 h2 <;> simp_all
  · intro dir ch h
    simp only [trendInsight] at h
    split_ifs at h with h1 h2 h3
    · simp only [Option.some_inj, Prod.mk.injEq] at h
      refine ⟨h.2.symm, ?_⟩
      rw [← h.1, if_pos (sub_pos.mp h3)]
    · simp only [Option.some_inj, Prod.mk.injEq] at h
      refine ⟨h.2.symm, ?_⟩
      rw [← h.1, if_neg (fun hc => h3 (sub_pos.mpr hc))]

/-- Witness for C5: two rows split by cutoff 5; positive share rises from 0
to 1, so a "more positive" trend is emitted. -/
theorem trend_insight_iff_witness :
    trendInsight [⟨0, "Monday", "Sadness"⟩, ⟨10, "Monday", "Happiness"⟩] 5 =
      some ("more positive", 1) ∧
    ((1 : ℚ) = positiveShare (recentRows
        [⟨0, "Monday", "Sadness"⟩, ⟨10, "Monday", "Happiness"⟩] 5) -
      positiveShare (olderRows
        [⟨0, "Monday", "Sadness"⟩, ⟨10, "Monday", "Happiness"⟩] 5) ∧
      "more positive" = (if positiveShare (olderRows
          [⟨0, "Monday", "Sadness"⟩, ⟨10, "Monday", "Happiness"⟩] 5) <
          positiveShare (recentRows
          [⟨0, "Monday", "Sadness"⟩, ⟨10, "Monday", "Happiness"⟩] 5)
        then "more positive" else "more reflective")) := by
  have hEval : trendInsight
      [⟨0, "Monday", "Sadness"⟩, ⟨10, "Monday", "Happiness"⟩] 5 =
      some ("more positive", 1) := by
    norm_num +decide [trendInsight, recentRows, olderRows, positiveShare,
      POSITIVE_EMOTIONS, List.filter]
  exact ⟨hEval,
    (trend_insight_iff [⟨0, "Monday", "Sadness"⟩,
      ⟨10, "Monday", "Happiness"⟩] 5).2 ("more positive") 1 hEval⟩

theorem addToGroups_keys (g : List (String × List String)) (day emo : String) :
    (addToGroups g day emo).map Prod.fst =
      if day ∈ g.map Prod.fst then g.map Prod.fst
      else g.map Prod.fst ++ [day] := by
  induction g with
  | nil => simp [addToGroups]
  | cons p rest ih =>
    obtain ⟨d, es⟩ := p
    by_cases hd : d = day
    · subst hd
      simp [addToGroups]
    · simp only [addToGroups, if_neg hd, List.map_cons]
      rw [ih]
      have hdd : ¬ day = d := fun hc => hd hc.symm
      by_cases hmem : day ∈ rest.map Prod.fst
      · rw [if_pos hmem, if_pos (by simp [hmem])]
      · rw [if_neg hmem, if_neg (by simp [hmem, hdd])]
        simp

theorem addToGroups_mem (day emo : String) :
    ∀ (g : List (String × List String)), (g.map Prod.fst).Nodup →
    ∀ p ∈ addToGroups g day emo,
      (p.1 ≠ day ∧ p ∈ g) ∨
      (∃ es, p = (day, es ++ [emo]) ∧ (day, es) ∈ g) ∨
      (p = (day, [emo]) ∧ day ∉ g.map Prod.fst) := by
  intro g
  induction g with
  | nil =>
    intro _ p hp
    simp only [addToGroups, List.mem_singleton] at hp
    exact Or.inr (Or.inr ⟨hp, by simp⟩)
  | cons q rest ih =>
    obtain ⟨d, es⟩ := q
    intro hnd p hp
    simp only [List.map_cons, List.nodup_cons] at hnd
    by_cases hd : d = day
    · subst hd
      simp only [addToGroups, eq_self_iff_true, if_true, List.mem_cons] at hp
      rcases hp with hp | hp
      · exact Or.inr (Or.inl ⟨es, hp, List.mem_cons_self _ _⟩)
      · have hne : p.1 ≠ d := by
          intro hc
          exact hnd.1 (hc ▸ List.mem_map_of_mem Prod.fst hp)
        exact Or.inl ⟨hne, List.mem_cons_of_mem _ hp⟩
    · simp only [addToGroups, if_neg hd, List.mem_cons] at hp
      rcases hp with hp | hp
      · exact Or.inl ⟨by rw [hp]; exact hd, List.mem_cons.mpr (Or.inl hp)⟩
      · rcases ih hnd.2 p hp with ⟨h1, h2⟩ | ⟨es2, h1, h2⟩ | ⟨h1, h2⟩
        · exact Or.inl ⟨h1, List.mem_cons_of_mem _ h2⟩
        · exact Or.inr (Or.inl ⟨es2, h1, List.mem_cons_of_mem _ h2⟩)
        · refine Or.inr (Or.inr ⟨h1, ?_⟩)
          simp only [List.map_cons, List.mem_cons]
          rintro (hc | hc)
          · exact hd hc.symm
          · exact h2 hc

/-- The invariant tying the grouping accumulator to the processed prefix of
the window: values are the primary emotions of the rows of that weekday in
order, every processed weekday has a group, every group key was seen, and
keys are distinct. -/
def GroupsInv (processed : List AnalysisRow)
    (acc : List (String × List String)) : Prop :=
  (∀ p ∈ acc, p.2 = (processed.filter (fun a => a.weekday = p.1)).map
    (fun a => a.primary_emotion)) ∧
  (∀ a ∈ processed, a.weekday ∈ acc.map Prod.fst) ∧
  (∀ p ∈ acc, p.1 ∈ processed.map (fun a => a.weekday)) ∧
  (acc.map Prod.fst).Nodup

theorem groupsInv_step (processed : List AnalysisRow)
    (acc : List (String × List String)) (a : AnalysisRow)
    (h : GroupsInv processed acc) :
    GroupsInv (processed ++ [a])
      (addToGroups acc a.weekday a.primary_emotion) := by
  obtain ⟨hV, hK, hK2, hN⟩ := h
  refine ⟨?_, ?_, ?_, ?_⟩
  · intro p hp
    rcases addToGroups_mem a.weekday a.primary_emotion acc hN p hp with
      ⟨h1, h2⟩ | ⟨es, h1, h2⟩ | ⟨h1, h2⟩
    · rw [hV p h2, List.filter_append]
      have hne : ¬ (a.weekday = p.1) := fun hc => h1 hc.symm
      have : List.filter (fun x => decide (x.weekday = p.1)) [a] = [] := by
        simp [hne]
      rw [this, List.append_nil]
    · have hes := hV _ h2
      simp only at hes
      rw [h1]
      simp only [List.filter_append, List.map_append]
      rw [← hes]
      congr 1
      simp
    · rw [h1]
      simp only [List.filter_append]
      have hnone : List.filter (fun x => decide (x.weekday = a.weekday))
          processed = [] := by
        rw [List.filter_eq_nil_iff]
        intro b hb
        simp only [decide_eq_true_eq]
        intro hc
        exact h2 (hc ▸ hK b hb)
      rw [hnone]
      simp
  · intro b hb
    rw [addToGroups_keys]
    rcases List.mem_append.mp hb with hb | hb
    · have := hK b hb
      split_ifs <;> simp [this]
    · simp only [List.mem_singleton] at hb
      subst hb
      split_ifs with hc <;> simp [hc]
  · intro p hp
    rcases addToGroups_mem a.weekday a.primary_emotion acc hN p hp with
      ⟨h1, h2⟩ | ⟨es, h1, h2⟩ | ⟨h1, h2⟩
    · simp only [List.map_append, List.mem_append]
      exact Or.inl (hK2 p h2)
    · rw [h1]
      simp
    · rw [h1]
      simp
  · rw [addToGroups_keys]
    split_ifs with hc
    · exact hN
    · simp [List.nodup_append, hN, hc]

theorem groupsInv_foldl (rows : List AnalysisRow) :
    ∀ (processed : List AnalysisRow) (acc : List (String × List String)),
      GroupsInv processed acc →
      GroupsInv (processed ++ rows)
        (rows.foldl (fun g a => addToGroups g a.weekday a.primary_emotion)
          acc) := by
  induction rows with
  | nil => intro processed acc h; simpa using h
  | cons r rest ih =>
    intro processed acc h
    rw [List.foldl_cons]
    have := ih (processed ++ [r]) _ (groupsInv_step processed acc r h)
    simpa [List.append_assoc] using this

theorem weekdayGroups_inv (rows : List AnalysisRow) :
    GroupsInv rows (weekdayGroups rows) := by
  have := groupsInv_foldl rows [] []
    ⟨by simp, by simp, by simp, by simp⟩
  simpa [weekdayGroups] using this

/-- The weekdays of the window in order of first appearance. -/
def firstSeenDays (rows : List AnalysisRow) : List String :=
  rows.foldl
    (fun ks a => if a.weekday ∈ ks then ks else ks ++ [a.weekday]) []

theorem keys_foldl (rows : List AnalysisRow) :
    ∀ acc : List (String × List String),
      ((rows.foldl (fun g a => addToGroups g a.weekday a.primary_emotion)
        acc).map Prod.fst) =
      rows.foldl (fun ks a => if a.weekday ∈ ks then ks else ks ++ [a.weekday])
        (acc.map Prod.fst) := by
  induction rows with
  | nil => intro acc; rfl
  | cons r rest ih =>
    intro acc
    rw [List.foldl_cons, List.foldl_cons, ih, addToGroups_keys]

/-- Group insertion order is first-appearance order of the weekdays. -/
theorem weekdayGroups_keys (rows : List AnalysisRow) :
    (weekdayGroups rows).map Prod.fst = firstSeenDays rows := by
  rw [weekdayGroups, firstSeenDays, keys_foldl]
  rfl

/-- Counterexample to C4 as stated: one Wednesday verdict followed by one
Monday verdict — a tie in counts.  The alphabetically-first weekday is
Monday, yet the code (Python `max` over the insertion-ordered dict) names
Wednesday, the weekday encountered first. -/
theorem busiest_day_not_alphabetical_counterexample :
    busiestDay [⟨0, "Wednesday", "Happiness"⟩, ⟨1, "Monday", "Sadness"⟩] =
      some ("Wednesday", ["Happiness"]) ∧
    countDay [⟨0, "Wednesday", "Happiness"⟩, ⟨1, "Monday", "Sadness"⟩]
        ("Monday") =
      countDay [⟨0, "Wednesday", "Happiness"⟩, ⟨1, "Monday", "Sadness"⟩]
        ("Wednesday") ∧
    ("Monday" : String) < "Wednesday" ∧
    ("Monday" : String) ≠ "Wednesday" := by
  refine ⟨by decide, by decide, ?_, by decide⟩
  rw [String.lt_iff_toList_lt]
  decide

/-- C4 (amended): for every non-empty window, the busiest-day insight names
a weekday of the window whose total verdict count is maximal; ties are
broken in favor of the weekday whose first verdict appears earliest in the
window (the insertion order of the grouping dict — `weekdayGroups` keys are
in first-appearance order by `weekdayGroups_keys` — and every group strictly
before the winner has a strictly smaller count), not alphabetically. -/
theorem busiest_day_max_count_first_seen (rows : List AnalysisRow)
    (h : rows ≠ []) :
    ∃ g l₁ l₂, busiestDay rows = some g ∧
      weekdayGroups rows = l₁ ++ g :: l₂ ∧
      (weekdayGroups rows).map Prod.fst = firstSeenDays rows ∧
      g.1 ∈ rows.map (fun a => a.weekday) ∧
      g.2.length = countDay rows g.1 ∧
      (∀ d ∈ rows.map (fun a => a.weekday),
        countDay rows d ≤ countDay rows g.1) ∧
      (∀ p ∈ l₁, p.2.length < g.2.length) := by
  obtain ⟨hV, hK, hK2, hN⟩ := weekdayGroups_inv rows
  obtain ⟨a, ha⟩ := List.exists_mem_of_ne_nil rows h
  have hgne : weekdayGroups rows ≠ [] := by
    intro hc
    have := hK a ha
    rw [hc] at this
    simp at this
  cases hfm : firstMaxBy (fun g => g.2.length) (weekdayGroups rows) with
  | none => exact absurd ((firstMaxBy_eq_none_iff _ _).mp hfm) hgne
  | some g =>
    obtain ⟨l₁, l₂, hsplit, hbefore, hall⟩ :=
      firstMaxBy_spec (fun g => g.2.length) _ g hfm
    have hgmem : g ∈ weekdayGroups rows := by
      rw [hsplit]
      exact List.mem_append.mpr (Or.inr (List.mem_cons_self _ _))
    have hglen : g.2.length = countDay rows g.1 := by
      rw [hV g hgmem, List.length_map, countDay]
    refine ⟨g, l₁, l₂, ?_, hsplit, weekdayGroups_keys rows, hK2 g hgmem,
      hglen, ?_, hbefore⟩
    · rw [busiestDay, pyMaxByLen_eq_firstMaxBy, hfm]
    · intro d hd
      obtain ⟨b, hb, rfl⟩ := List.mem_map.mp hd
      have hdin : b.weekday ∈ (weekdayGroups rows).map Prod.fst := hK b hb
      obtain ⟨p, hp, hpfst⟩ := List.mem_map.mp hdin
      have hlen : countDay rows b.weekday = p.2.length := by
        rw [hV p hp, List.length_map, countDay, hpfst]
      rw [hlen, ← hglen]
      exact hall p hp

/-- Witness for C4 at a concrete two-row window. -/
theorem busiest_day_max_count_first_seen_witness :
    ([(⟨0, "Wednesday", "Happiness"⟩ : AnalysisRow),
      ⟨1, "Monday", "Sadness"⟩] ≠ []) ∧
    (∃ g l₁ l₂,
      busiestDay [⟨0, "Wednesday", "Happiness"⟩, ⟨1, "Monday", "Sadness"⟩] =
        some g ∧
      weekdayGroups [⟨0, "Wednesday", "Happiness"⟩,
        ⟨1, "Monday", "Sadness"⟩] = l₁ ++ g :: l₂ ∧
      (weekdayGroups [⟨0, "Wednesday", "Happiness"⟩,
        ⟨1, "Monday", "Sadness"⟩]).map Prod.fst =
        firstSeenDays [⟨0, "Wednesday", "Happiness"⟩,
          ⟨1, "Monday", "Sadness"⟩] ∧
      g.1 ∈ ([⟨0, "Wednesday", "Happiness"⟩,
        ⟨1, "Monday", "Sadness"⟩] : List AnalysisRow).map
          (fun a => a.weekday) ∧
      g.2.length = countDay [⟨0, "Wednesday", "Happiness"⟩,
        ⟨1, "Monday", "Sadness"⟩] g.1 ∧
      (∀ d ∈ ([⟨0, "Wednesday", "Happiness"⟩,
          ⟨1, "Monday", "Sadness"⟩] : List AnalysisRow).map
            (fun a => a.weekday),
        countDay [⟨0, "Wednesday", "Happiness"⟩,
          ⟨1, "Monday", "Sadness"⟩] d ≤
        countDay [⟨0, "Wednesday", "Happiness"⟩,
          ⟨1, "Monday", "Sadness"⟩] g.1) ∧
      (∀ p ∈ l₁, p.2.length < g.2.length)) :=
  ⟨by simp, busiest_day_max_count_first_seen _ (by simp)⟩

end MusicRec
